import Mathlib

/-!
Verification of the SauceDemo test-suite's ordering/totals verification core.

The repository's verification logic lives in the page objects
(`inventory-page.ts`, `basePage` in `saucedemo-automation/page-objects`):
extraction of product names and prices from rendered text, sort-order
checks implemented as "sort a copy and compare with the original",
cart-badge counting, and (per the specification) a totals verifier for
tax and total amounts on the checkout overview page.

JavaScript strings are modelled as `List Char`; JavaScript numbers that
can be `NaN` are modelled as `Option ℚ` with `none` standing for `NaN`.
The JS builtins used by the code (`trim`, `replace` with a string
pattern, `parseFloat`, `parseInt(·, 10)`, `Array.prototype.sort` with a
comparator, `localeCompare`) are modelled by the executable functions
below; `sort` with a consistent comparator is modelled by the stable
`List.mergeSort`, and `localeCompare` by code-point lexicographic
comparison.
-/

/-- JavaScript strings, modelled as lists of characters. -/
abbrev Str := List Char

/-- Whitespace recognised by the modelled JS builtins (`trim`,
`parseFloat`, `parseInt`): space, tab, newline, carriage return. -/
def isJsSpace (c : Char) : Bool :=
  c == ' ' || c == '\t' || c == '\n' || c == '\r'

/-- Model of `String.prototype.trim`, left half: drop leading whitespace. -/
def jsTrimLeft (s : Str) : Str :=
  List.dropWhile isJsSpace s

/-- Model of `String.prototype.trim`, right half: drop trailing whitespace. -/
def jsTrimRight (s : Str) : Str :=
  (List.dropWhile isJsSpace s.reverse).reverse

/-- Model of `String.prototype.trim`: drop leading and trailing whitespace. -/
def jsTrim (s : Str) : Str :=
  jsTrimRight (jsTrimLeft s)

/-- Model of `String.prototype.replace(pat, rep)` with a string pattern:
replace the first occurrence of `pat` (the empty pattern matches at the
start, as in JS). Used by the source as `priceText.replace('$', '')` and
`dataTestAttr.replace('add-to-cart-', '')`. -/
def replaceFirst (pat rep : Str) : Str → Str
  | [] => if pat = [] then rep else []
  | c :: t =>
    if List.isPrefixOf pat (c :: t) then rep ++ List.drop pat.length (c :: t)
    else c :: replaceFirst pat rep t

/-- Decimal digit string to natural number (most significant first). -/
def digitsToNat (ds : Str) : Nat :=
  List.foldl (fun n c => 10 * n + (c.toNat - '0'.toNat)) 0 ds

/-- The digits of an unsigned decimal literal: the longest leading run of
digits, `none` when there is none. -/
def digitsVal (s : Str) : Option Nat :=
  if List.takeWhile Char.isDigit s = [] then none
  else some (digitsToNat (List.takeWhile Char.isDigit s))

/-- Unsigned part of the `parseFloat` model: longest prefix of the form
`digits[.digits]`; `none` (NaN) when no digit is consumed. -/
def parseUnsigned (s : Str) : Option ℚ :=
  let ip := List.takeWhile Char.isDigit s
  let rest := List.dropWhile Char.isDigit s
  let fp := match rest with
    | [] => []
    | c :: t => if c = '.' then List.takeWhile Char.isDigit t else []
  if ip = [] ∧ fp = [] then none
  else some ((digitsToNat ip : ℚ) + (digitsToNat fp : ℚ) / (10 : ℚ) ^ fp.length)

/-- Model of the JS builtin `parseFloat`: skip leading whitespace, parse an
optional sign and the longest decimal-literal prefix; `none` models the
`NaN` result on unparseable input. (Exponent suffixes and `Infinity`,
unused by this suite's inputs, are not modelled.) -/
def parseFloat (s : Str) : Option ℚ :=
  match List.dropWhile isJsSpace s with
  | [] => none
  | c :: t =>
    if c = '-' then Option.map (fun q => -q) (parseUnsigned t)
    else if c = '+' then parseUnsigned t
    else parseUnsigned (c :: t)

/-- Model of the JS builtin `parseInt(s, 10)`: skip leading whitespace,
parse an optional sign and the longest run of decimal digits; `none`
models the `NaN` result when no digit is consumed. -/
def parseIntTen (s : Str) : Option Int :=
  match List.dropWhile isJsSpace s with
  | [] => none
  | c :: t =>
    if c = '-' then Option.map (fun n => -(n : Int)) (digitsVal t)
    else if c = '+' then Option.map (fun n => (n : Int)) (digitsVal t)
    else Option.map (fun n => (n : Int)) (digitsVal (c :: t))

/-- Model of `a.localeCompare(b) <= 0`: code-point lexicographic
comparison of strings, the comparator used by `areProductsSortedAZ`. -/
def strLe : Str → Str → Bool
  | [], _ => true
  | _ :: _, [] => false
  | a :: as, b :: bs => if a < b then true else if b < a then false else strLe as bs

/-- The numeric comparator `(a, b) => a - b <= 0` on non-NaN JS numbers. -/
def qLe (a b : ℚ) : Bool :=
  decide (a ≤ b)

/-- Lift a comparator on rationals to NaN-able JS numbers: per the
ECMAScript sort algorithm a comparator returning `NaN` is treated as `0`
(elements compare as equal), so any comparison involving `NaN` holds. -/
def jsNumLe (cmp : ℚ → ℚ → Bool) : Option ℚ → Option ℚ → Bool
  | some x, some y => cmp x y
  | _, _ => true

/-- Adjacent-pair ordering check: `true` iff every adjacent pair `(i, i+1)`
satisfies `le`; trivially `true` for empty and single-element lists.
This is the specification's characterisation of `isOrdered`, to be
compared with the source's sort-and-compare implementation. -/
def chainLe (le : α → α → Bool) : List α → Bool
  | [] => true
  | [_] => true
  | a :: b :: t => le a b && chainLe le (b :: t)

/-- `InventoryPage.getProductNames`: for each `.inventory_item_name`
element, read `textContent` (nullable); push the trimmed text when the
raw text is truthy (non-null and non-empty). -/
def getProductNames (texts : List (Option Str)) : List Str :=
  List.filterMap
    (fun o => match o with
      | none => none
      | some s => if s = [] then none else some (jsTrim s))
    texts

/-- `InventoryPage.getProductPrices`: for each `.inventory_item_price`
element, read `textContent`; when truthy, strip the first `$` and apply
`parseFloat`, pushing the resulting number (possibly NaN). -/
def getProductPrices (texts : List (Option Str)) : List (Option ℚ) :=
  List.filterMap
    (fun o => match o with
      | none => none
      | some s => if s = [] then none else some (parseFloat (replaceFirst ['$'] [] s)))
    texts

/-- Raw DOM data of one `.inventory_item`: the nullable `textContent` of
its name, description and price elements, and the nullable `data-test`
attribute of its button. -/
structure RawItem where
  nameText : Option Str
  descText : Option Str
  priceText : Option Str
  buttonDataTest : Option Str
deriving DecidableEq

/-- The `Product` record built by `InventoryPage.getProducts`;
`price : Option ℚ` with `none` modelling `NaN`. -/
structure Product where
  name : Str
  description : Str
  price : Option ℚ
  id : Str
deriving DecidableEq

/-- One iteration of the loop in `InventoryPage.getProducts`: default
each nullable text to `''`, parse the price with
`parseFloat(priceText.replace('$', ''))`, and strip the
`add-to-cart-` prefix from the button's `data-test` attribute. -/
def extractProduct (it : RawItem) : Product :=
  ⟨Option.getD it.nameText [],
   Option.getD it.descText [],
   parseFloat (replaceFirst ['$'] [] (Option.getD it.priceText [])),
   replaceFirst ['a', 'd', 'd', '-', 't', 'o', '-', 'c', 'a', 'r', 't', '-'] []
     (Option.getD it.buttonDataTest [])⟩

/-- `InventoryPage.getProducts`: build a `Product` from every
`.inventory_item`, with no guard against unparseable prices. -/
def getProducts (items : List RawItem) : List Product :=
  List.map extractProduct items

/-- A snapshot of the inventory page DOM, as read by the page object's
locators: name texts, price texts, and the raw items. -/
structure InventoryState where
  nameTexts : List (Option Str)
  priceTexts : List (Option Str)
  items : List RawItem
deriving DecidableEq

/-- `InventoryPage.areProductsSortedAZ`: read the names, sort a copy with
`(a, b) => a.localeCompare(b)` and compare (`JSON.stringify` equality)
with the original. -/
def areProductsSortedAZ (st : InventoryState) : Bool :=
  let names := getProductNames st.nameTexts
  List.mergeSort names strLe == names

/-- `InventoryPage.areProductsSortedZA`: sort a copy of the names with
`(a, b) => b.localeCompare(a)` and compare with the original. -/
def areProductsSortedZA (st : InventoryState) : Bool :=
  let names := getProductNames st.nameTexts
  List.mergeSort names (fun a b => strLe b a) == names

/-- `InventoryPage.areProductsSortedByPriceLowToHigh`: sort a copy of the
prices with `(a, b) => a - b` and compare with the original. -/
def areProductsSortedByPriceLowToHigh (st : InventoryState) : Bool :=
  let prices := getProductPrices st.priceTexts
  List.mergeSort prices (jsNumLe qLe) == prices

/-- `InventoryPage.areProductsSortedByPriceHighToLow`: sort a copy of the
prices with `(a, b) => b - a` and compare with the original. -/
def areProductsSortedByPriceHighToLow (st : InventoryState) : Bool :=
  let prices := getProductPrices st.priceTexts
  List.mergeSort prices (jsNumLe (fun a b => qLe b a)) == prices

/-- The per-element normalisation of `getProductNames` applied to a
string sequence (drop falsy elements, trim the rest), the `normalize`
of the specification's name pipeline. -/
def normalizeNames (l : List Str) : List Str :=
  List.filterMap (fun s => if s = [] then none else some (jsTrim s)) l

/-- `isOrdered` with the lexicographic-ascending spec, as realised by the
source: normalise the sequence, then sort a copy and compare. -/
def isOrderedAZ (s : List Str) : Bool :=
  let ns := normalizeNames s
  List.mergeSort ns strLe == ns

/-- `isOrdered` with the lexicographic-descending spec, as realised by
the source: normalise the sequence, then sort a copy and compare. -/
def isOrderedZA (s : List Str) : Bool :=
  let ns := normalizeNames s
  List.mergeSort ns (fun a b => strLe b a) == ns

/-- Modelled from the spec: position-sensitive equality of an observed
sequence with a caller-supplied expected sequence. The repository
realises it through `expect(productNames).toEqual(expected)` in the
sorting tests (TC_01..TC_04); the deep-equality helper itself is not
under src/, so it is modelled from the specification's contract. -/
def matchesExpected (s expected : List Str) : Bool :=
  s == expected

/-- Error taxonomy of the verifier (specification section 7). -/
inductive VerifError where
  | invalidAmount
deriving DecidableEq

/-- Round half away from zero to an integer. -/
def roundHalfAway (x : ℚ) : ℤ :=
  if 0 ≤ x then ⌊x + 1 / 2⌋ else ⌈x - 1 / 2⌉

/-- Round to two decimal places, half away from zero. -/
def round2 (x : ℚ) : ℚ :=
  (roundHalfAway (x * 100) : ℚ) / 100

/-- Modelled from the spec: `CheckoutOverviewPage.validateTaxCalculation`
is called by the checkout test (TC_08) but its implementation is not
under src/; modelled from specification section 4.2: a negative
MoneyAmount signals `InvalidAmount`, otherwise the check returns whether
the observed tax is within `0.01` of `round(subtotal * rate, 2)`
(half away from zero). -/
def validateTaxCalculation (subtotal observedTax rate : ℚ) : Except VerifError Bool :=
  if subtotal < 0 ∨ observedTax < 0 then Except.error VerifError.invalidAmount
  else Except.ok (decide (|round2 (subtotal * rate) - observedTax| ≤ 1 / 100))

/-- Modelled from the spec: `CheckoutOverviewPage.validateTotalCalculation`
is called by the checkout test (TC_08) but its implementation is not
under src/; modelled from specification section 4.2: a negative
MoneyAmount signals `InvalidAmount`, otherwise the check returns whether
`subtotal + tax` is within `0.01` of the observed total. -/
def validateTotalCalculation (subtotal tax observedTotal : ℚ) : Except VerifError Bool :=
  if subtotal < 0 ∨ tax < 0 ∨ observedTotal < 0 then Except.error VerifError.invalidAmount
  else Except.ok (decide (|subtotal + tax - observedTotal| ≤ 1 / 100))

/-- `BasePage.getCartItemCount`: when the badge is not visible return 0;
otherwise read its text and return `parseInt(badgeText, 10)` when the
text is truthy, else 0. The result is a JS number (`none` = NaN). -/
def getCartItemCount (badgeVisible : Bool) (badgeText : Option Str) : Option Int :=
  if badgeVisible = false then some 0
  else match badgeText with
    | none => some 0
    | some t => if t = [] then some 0 else parseIntTen t

/-! ### Properties of the lexicographic comparator -/

theorem strLe_refl (a : Str) : strLe a a = true := by
  induction a with
  | nil => rfl
  | cons c t ih => simp [strLe, ih]

theorem strLe_cons_iff {a b : Char} {as bs : Str} :
    strLe (a :: as) (b :: bs) = true ↔ a < b ∨ (a = b ∧ strLe as bs = true) := by
  by_cases h1 : a < b
  · simp [strLe, h1]
  · by_cases h2 : b < a
    · have hne : a ≠ b := fun he => absurd (he ▸ h2) (lt_irrefl _)
      simp [strLe, h1, h2, hne]
    · have heq : a = b := le_antisymm (le_of_not_lt h2) (le_of_not_lt h1)
      simp [strLe, h1, h2, heq]

theorem strLe_trans : ∀ {x y z : Str}, strLe x y = true → strLe y z = true → strLe x z = true
  | [], _, _, _, _ => rfl
  | _ :: _, [], _, h, _ => by simp [strLe] at h
  | _ :: _, _ :: _, [], _, h => by simp [strLe] at h
  | a :: as, b :: bs, c :: cs, h1, h2 => by
    rw [strLe_cons_iff] at h1 h2 ⊢
    rcases h1 with h1 | ⟨rfl, h1⟩
    · rcases h2 with h2 | ⟨rfl, h2⟩
      · exact Or.inl (lt_trans h1 h2)
      · exact Or.inl h1
    · rcases h2 with h2 | ⟨rfl, h2⟩
      · exact Or.inl h2
      · exact Or.inr ⟨rfl, strLe_trans h1 h2⟩

theorem strLe_total : ∀ x y : Str, strLe x y || strLe y x
  | [], _ => by simp [strLe]
  | _ :: _, [] => by simp [strLe]
  | a :: as, b :: bs => by
    rcases lt_trichotomy a b with h | h | h
    · simp [strLe_cons_iff, h]
    · subst h
      have := strLe_total as bs
      rcases Bool.or_eq_true_iff.mp this with h' | h' <;>
        simp [strLe_cons_iff, h']
    · simp [strLe_cons_iff, h]

/-! ### The adjacent-pair check versus sort-and-compare -/

theorem chainLe_iff (le : α → α → Bool) :
    ∀ l : List α, chainLe le l = true ↔ List.Chain' (fun a b => le a b = true) l
  | [] => by simp [chainLe]
  | [a] => by simp [chainLe]
  | a :: b :: t => by
    rw [chainLe, Bool.and_eq_true, chainLe_iff le (b :: t), List.chain'_cons]

theorem chain_rel_local {R : α → α → Prop} :
    ∀ {a : α} {l : List α}, List.Chain R a l →
      (∀ x ∈ a :: l, ∀ y ∈ a :: l, ∀ z ∈ a :: l, R x y → R y z → R x z) →
      ∀ b ∈ l, R a b := by
  intro a l h
  induction h with
  | nil => intro _ _ h; exact absurd h (List.not_mem_nil _)
  | @cons a b l hab _ ih =>
    intro htrans c hc
    rcases List.mem_cons.mp hc with rfl | hc
    · exact hab
    · have hbc : R b c := ih
        (fun x hx y hy z hz => htrans x (List.mem_cons_of_mem _ hx) y
          (List.mem_cons_of_mem _ hy) z (List.mem_cons_of_mem _ hz))
        c hc
      exact htrans a (List.mem_cons_self _ _) b
        (List.mem_cons_of_mem _ (List.mem_cons_self _ _)) c
        (List.mem_cons_of_mem _ (List.mem_cons_of_mem _ hc)) hab hbc

theorem chain'_pairwise_local {R : α → α → Prop} :
    ∀ {l : List α}, List.Chain' R l →
      (∀ x ∈ l, ∀ y ∈ l, ∀ z ∈ l, R x y → R y z → R x z) →
      List.Pairwise R l
  | [], _, _ => List.Pairwise.nil
  | a :: l, h, htrans => by
    have hc : List.Chain R a l := h
    refine List.Pairwise.cons (chain_rel_local hc htrans) ?_
    exact chain'_pairwise_local (List.Chain'.tail h)
      (fun x hx y hy z hz => htrans x (List.mem_cons_of_mem _ hx) y
        (List.mem_cons_of_mem _ hy) z (List.mem_cons_of_mem _ hz))

theorem pairwise_chainLe (le : α → α → Bool) {l : List α}
    (h : List.Pairwise (fun a b => le a b = true) l) : chainLe le l = true :=
  (chainLe_iff le l).mpr (List.Pairwise.chain' h)

theorem mergeSort_self_iff (le : α → α → Bool)
    (htrans : ∀ a b c, le a b = true → le b c = true → le a c = true)
    (htotal : ∀ a b, le a b || le b a)
    (l : List α) :
    List.mergeSort l le = l ↔ chainLe le l = true := by
  constructor
  · intro h
    have hs := List.sorted_mergeSort htrans htotal l
    rw [h] at hs
    exact pairwise_chainLe le hs
  · intro h
    apply List.mergeSort_of_sorted
    exact chain'_pairwise_local ((chainLe_iff le l).mp h)
      (fun x _ y _ z _ hxy hyz => htrans x y z hxy hyz)

theorem qLe_trans : ∀ a b c : ℚ, qLe a b = true → qLe b c = true → qLe a c = true := by
  intro a b c h1 h2
  simp only [qLe, decide_eq_true_eq] at *
  exact le_trans h1 h2

theorem qLe_total : ∀ a b : ℚ, qLe a b || qLe b a := by
  intro a b
  simp only [qLe, Bool.or_eq_true, decide_eq_true_eq]
  exact le_total a b

theorem mergeSort_self_iff_opt (cmp : ℚ → ℚ → Bool)
    (htrans : ∀ a b c, cmp a b = true → cmp b c = true → cmp a c = true)
    (htotal : ∀ a b, cmp a b || cmp b a)
    (l : List (Option ℚ)) (h : ∀ x ∈ l, x.isSome = true) :
    List.mergeSort l (jsNumLe cmp) = l ↔ chainLe (jsNumLe cmp) l = true := by
  have hl : ∀ a ∈ l, ∀ b ∈ l,
      jsNumLe cmp a b = cmp (Option.getD a 0) (Option.getD b 0) := by
    intro a ha b hb
    rcases Option.isSome_iff_exists.mp (h a ha) with ⟨x, rfl⟩
    rcases Option.isSome_iff_exists.mp (h b hb) with ⟨y, rfl⟩
    rfl
  constructor
  · intro heq
    have hmap := @List.map_mergeSort (Option ℚ) ℚ (jsNumLe cmp) cmp
      (fun o => Option.getD o 0) l hl
    rw [heq] at hmap
    have hp : List.Pairwise (fun a b : ℚ => cmp a b = true)
        (List.map (fun o => Option.getD o 0) l) := by
      rw [hmap]
      exact List.sorted_mergeSort htrans htotal _
    have hp2 : List.Pairwise
        (fun a b : Option ℚ => cmp (Option.getD a 0) (Option.getD b 0) = true) l :=
      List.pairwise_map.mp hp
    apply pairwise_chainLe
    exact List.Pairwise.imp_of_mem (fun ha hb hr => by rw [hl _ ha _ hb]; exact hr) hp2
  · intro hc
    apply List.mergeSort_of_sorted
    apply chain'_pairwise_local ((chainLe_iff _ l).mp hc)
    intro x hx y hy z hz hxy hyz
    rw [hl x hx y hy] at hxy
    rw [hl y hy z hz] at hyz
    rw [hl x hx z hz]
    exact htrans _ _ _ hxy hyz

theorem az_eq_chain (st : InventoryState) :
    areProductsSortedAZ st = chainLe strLe (getProductNames st.nameTexts) := by
  rw [Bool.eq_iff_iff]
  simp only [areProductsSortedAZ, beq_iff_eq]
  exact mergeSort_self_iff strLe (fun _ _ _ h1 h2 => strLe_trans h1 h2) strLe_total _

theorem za_eq_chain (st : InventoryState) :
    areProductsSortedZA st = chainLe (fun a b => strLe b a) (getProductNames st.nameTexts) := by
  rw [Bool.eq_iff_iff]
  simp only [areProductsSortedZA, beq_iff_eq]
  exact mergeSort_self_iff (fun a b => strLe b a) (fun _ _ _ h1 h2 => strLe_trans h2 h1)
    (fun a b => by show (strLe b a || strLe a b) = true; exact strLe_total b a) _

theorem lohi_eq_chain (st : InventoryState)
    (h : ∀ p ∈ getProductPrices st.priceTexts, p.isSome = true) :
    areProductsSortedByPriceLowToHigh st
      = chainLe (jsNumLe qLe) (getProductPrices st.priceTexts) := by
  rw [Bool.eq_iff_iff]
  simp only [areProductsSortedByPriceLowToHigh, beq_iff_eq]
  exact mergeSort_self_iff_opt qLe qLe_trans qLe_total _ h

theorem hilo_eq_chain (st : InventoryState)
    (h : ∀ p ∈ getProductPrices st.priceTexts, p.isSome = true) :
    areProductsSortedByPriceHighToLow st
      = chainLe (jsNumLe (fun a b => qLe b a)) (getProductPrices st.priceTexts) := by
  rw [Bool.eq_iff_iff]
  simp only [areProductsSortedByPriceHighToLow, beq_iff_eq]
  exact mergeSort_self_iff_opt (fun a b => qLe b a) (fun _ _ _ h1 h2 => qLe_trans _ _ _ h2 h1)
    (fun a b => by show (qLe b a || qLe a b) = true; exact qLe_total b a) _ h

theorem isOrderedAZ_eq_chain (s : List Str) :
    isOrderedAZ s = chainLe strLe (normalizeNames s) := by
  rw [Bool.eq_iff_iff]
  simp only [isOrderedAZ, beq_iff_eq]
  exact mergeSort_self_iff strLe (fun _ _ _ h1 h2 => strLe_trans h1 h2) strLe_total _

theorem chainLe_short (le : α → α → Bool) (l : List α) (h : l.length ≤ 1) :
    chainLe le l = true := by
  match l with
  | [] => rfl
  | [a] => rfl
  | a :: b :: t => simp at h

theorem sortCheck_short [BEq α] [LawfulBEq α] (le : α → α → Bool) (l : List α)
    (h : l.length ≤ 1) : (List.mergeSort l le == l) = true := by
  match l with
  | [] => simp
  | [a] => simp
  | a :: b :: t => simp at h

/-! ### Idempotence of the trim normalisation -/

theorem dropWhile_idem {p : α → Bool} :
    ∀ l : List α, List.dropWhile p (List.dropWhile p l) = List.dropWhile p l := by
  intro l
  induction l with
  | nil => rfl
  | cons c t ih => cases h : p c <;> simp [List.dropWhile_cons, h, ih]

theorem jsTrimRight_prefix (l : Str) : List.IsPrefix (jsTrimRight l) l := by
  rw [jsTrimRight]
  have h := List.dropWhile_suffix (l := l.reverse) isJsSpace
  rw [← List.reverse_reverse (List.dropWhile isJsSpace l.reverse)] at h
  exact List.reverse_suffix.mp h

theorem head_not_space_of_trimmedLeft {c : Char} {t : Str}
    (h : jsTrimLeft (c :: t) = c :: t) : isJsSpace c = false := by
  rw [jsTrimLeft, List.dropWhile_eq_self_iff] at h
  have := h (by simp)
  simpa using this

theorem jsTrimLeft_of_trimmedLeft {u : Str} (h : jsTrimLeft u = u) :
    jsTrimLeft (jsTrimRight u) = jsTrimRight u := by
  cases u with
  | nil => rfl
  | cons c t =>
    have hc := head_not_space_of_trimmedLeft h
    rcases hpre : jsTrimRight (c :: t) with _ | ⟨c', t'⟩
    · rfl
    · have hp := jsTrimRight_prefix (c :: t)
      rw [hpre] at hp
      rcases hp with ⟨r, hr⟩
      have hcc : c' = c := by
        have := congrArg (fun l => List.head? l) hr
        simpa using this
      rw [jsTrimLeft, List.dropWhile_cons, hcc, hc]
      simp

theorem jsTrim_idem (s : Str) : jsTrim (jsTrim s) = jsTrim s := by
  have hu : jsTrimLeft (jsTrimLeft s) = jsTrimLeft s := dropWhile_idem s
  rw [jsTrim, jsTrim, jsTrimLeft_of_trimmedLeft hu]
  rw [jsTrimRight, jsTrimRight, List.reverse_reverse, dropWhile_idem]

theorem normalizeNames_idem {s : List Str} (h : ∀ x ∈ s, x ≠ [] → jsTrim x ≠ []) :
    normalizeNames (normalizeNames s) = normalizeNames s := by
  induction s with
  | nil => rfl
  | cons x t ih =>
    have ih' := ih (fun y hy => h y (List.mem_cons_of_mem _ hy))
    by_cases hx : x = []
    · simp [normalizeNames, List.filterMap_cons, hx] at ih' ⊢
      exact ih'
    · have htr : jsTrim x ≠ [] := h x (List.mem_cons_self _ _) hx
      simp [normalizeNames, List.filterMap_cons, hx, htr, jsTrim_idem] at ih' ⊢
      exact ih'

/-! ### Evaluation helpers for rounding and digit strings -/

theorem round2_eval (x : ℚ) (n : ℤ) (h0 : 0 ≤ x * 100) (h1 : (n : ℚ) ≤ x * 100 + 1 / 2)
    (h2 : x * 100 + 1 / 2 < n + 1) : round2 x = (n : ℚ) / 100 := by
  rw [round2, roundHalfAway, if_pos h0]
  have hf : ⌊x * 100 + 1 / 2⌋ = n := Int.floor_eq_iff.mpr ⟨h1, h2⟩
  rw [hf]

theorem nonneg_not_cond {a b : ℚ} (ha : 0 ≤ a) (hb : 0 ≤ b) : ¬(a < 0 ∨ b < 0) := by
  intro h
  rcases h with h | h <;> linarith

theorem digit_not_space {c : Char} (h : c.isDigit = true) : isJsSpace c = false := by
  cases hs : isJsSpace c
  · rfl
  · exfalso
    simp only [isJsSpace, Bool.or_eq_true, beq_iff_eq] at hs
    rcases hs with ((rfl | rfl) | rfl) | rfl <;> exact absurd h (by decide)

theorem dropWhile_eq_self_of_neg {p : α → Bool} {l : List α} (h : ∀ c ∈ l, p c = false) :
    List.dropWhile p l = l := by
  cases l with
  | nil => rfl
  | cons c t =>
    rw [List.dropWhile_cons, h c (List.mem_cons_self _ _)]
    simp

theorem takeWhile_eq_self_of_pos {p : α → Bool} :
    ∀ {l : List α}, (∀ c ∈ l, p c = true) → List.takeWhile p l = l
  | [], _ => rfl
  | c :: t, h => by
    rw [List.takeWhile_cons, h c (List.mem_cons_self _ _)]
    simp [takeWhile_eq_self_of_pos (fun x hx => h x (List.mem_cons_of_mem _ hx))]

/-! ### Claim theorems -/

/-- C1: for every page state, each of the four sort checks (lexicographic
or numeric, ascending or descending) returns `true` if and only if every
adjacent pair of the extracted (normalized) sequence satisfies the
directional predicate; the numeric checks are characterised under the
hypothesis that no extracted price is NaN, and empty or single-element
sequences always pass. The checks are implemented by sorting a copy with
the corresponding comparator and testing equality with the original, so
this is the equivalence of sort-and-compare with the adjacent-pair
characterisation. -/
theorem sortChecks_iff_adjacentPairs (st : InventoryState) :
    (areProductsSortedAZ st = chainLe strLe (getProductNames st.nameTexts))
    ∧ (areProductsSortedZA st = chainLe (fun a b => strLe b a) (getProductNames st.nameTexts))
    ∧ ((∀ p ∈ getProductPrices st.priceTexts, p.isSome = true) →
        areProductsSortedByPriceLowToHigh st
            = chainLe (jsNumLe qLe) (getProductPrices st.priceTexts)
          ∧ areProductsSortedByPriceHighToLow st
            = chainLe (jsNumLe (fun a b => qLe b a)) (getProductPrices st.priceTexts))
    ∧ ((getProductNames st.nameTexts).length ≤ 1 →
        areProductsSortedAZ st = true ∧ areProductsSortedZA st = true)
    ∧ ((getProductPrices st.priceTexts).length ≤ 1 →
        areProductsSortedByPriceLowToHigh st = true
          ∧ areProductsSortedByPriceHighToLow st = true) := by
  refine ⟨az_eq_chain st, za_eq_chain st,
    fun h => ⟨lohi_eq_chain st h, hilo_eq_chain st h⟩, fun h => ⟨?_, ?_⟩, fun h => ⟨?_, ?_⟩⟩
  · rw [az_eq_chain st]
    exact chainLe_short _ _ h
  · rw [za_eq_chain st]
    exact chainLe_short _ _ h
  · simp only [areProductsSortedByPriceLowToHigh]
    exact sortCheck_short _ _ h
  · simp only [areProductsSortedByPriceHighToLow]
    exact sortCheck_short _ _ h

/-- C1 witness: the characterisation instantiated at a concrete one-item
page state, with every hypothesis discharged by computation. -/
theorem sortChecks_iff_adjacentPairs_w :
    (areProductsSortedAZ ⟨[some ['a']], [some ['$', '1']], []⟩
        = chainLe strLe (getProductNames [some ['a']]))
    ∧ (areProductsSortedZA ⟨[some ['a']], [some ['$', '1']], []⟩
        = chainLe (fun a b => strLe b a) (getProductNames [some ['a']]))
    ∧ (areProductsSortedByPriceLowToHigh ⟨[some ['a']], [some ['$', '1']], []⟩
        = chainLe (jsNumLe qLe) (getProductPrices [some ['$', '1']]))
    ∧ (areProductsSortedByPriceHighToLow ⟨[some ['a']], [some ['$', '1']], []⟩
        = chainLe (jsNumLe (fun a b => qLe b a)) (getProductPrices [some ['$', '1']]))
    ∧ areProductsSortedAZ ⟨[some ['a']], [some ['$', '1']], []⟩ = true
    ∧ areProductsSortedZA ⟨[some ['a']], [some ['$', '1']], []⟩ = true
    ∧ areProductsSortedByPriceLowToHigh ⟨[some ['a']], [some ['$', '1']], []⟩ = true
    ∧ areProductsSortedByPriceHighToLow ⟨[some ['a']], [some ['$', '1']], []⟩ = true := by
  have h := sortChecks_iff_adjacentPairs ⟨[some ['a']], [some ['$', '1']], []⟩
  have h3 := h.2.2.1 (by decide)
  have h4 := h.2.2.2.1 (by decide)
  have h5 := h.2.2.2.2 (by decide)
  exact ⟨h.1, h.2.1, h3.1, h3.2, h4.1, h4.2, h5.1, h5.2⟩

/-- C2: `matchesExpected` is position-sensitive equality: it holds exactly
for equal sequences, fails whenever the sequences differ (in particular
when the lengths differ), accepts a sequence against itself, and rejects
a reversal whose endpoints differ even though it has the same elements. -/
theorem matchesExpected_spec (s e s2 e2 : List Str) (a b c : Str) :
    (matchesExpected s e = true ↔ s = e)
    ∧ (s2 ≠ e2 → matchesExpected s2 e2 = false)
    ∧ (s2.length ≠ e2.length → matchesExpected s2 e2 = false)
    ∧ matchesExpected [a, b, c] [a, b, c] = true
    ∧ (a ≠ c → matchesExpected [a, b, c] [c, b, a] = false) := by
  have hiff : ∀ u v : List Str, matchesExpected u v = true ↔ u = v := by
    intro u v
    simp [matchesExpected]
  have hne : ∀ u v : List Str, u ≠ v → matchesExpected u v = false := by
    intro u v huv
    cases hm : matchesExpected u v
    · rfl
    · exact absurd ((hiff u v).mp hm) huv
  refine ⟨hiff s e, hne s2 e2, fun h => hne s2 e2 (fun he => h (congrArg List.length he)),
    (hiff _ _).mpr rfl, fun hac => hne _ _ (fun he => ?_)⟩
  have := congrArg (fun l => List.head? l) he
  simp at this
  exact hac this

/-- C2 witness: concrete instances, with the hypotheses discharged by
computation. -/
theorem matchesExpected_spec_w :
    (matchesExpected [['a']] [['a']] = true ↔ [['a']] = [['a']])
    ∧ matchesExpected [['a']] [] = false
    ∧ matchesExpected [['a']] [] = false
    ∧ matchesExpected [['a'], ['b'], ['c']] [['a'], ['b'], ['c']] = true
    ∧ matchesExpected [['a'], ['b'], ['c']] [['c'], ['b'], ['a']] = false := by
  have h := matchesExpected_spec [['a']] [['a']] [['a']] [] ['a'] ['b'] ['c']
  exact ⟨h.1, h.2.1 (by decide), h.2.2.1 (by decide), h.2.2.2.1, h.2.2.2.2 (by decide)⟩

/-- C3: away from the negative-input guard, `validateTaxCalculation`
returns `true` iff the observed tax is within `0.01` of
`round(subtotal * rate, 2)` rounded half away from zero; concretely,
tax 8.00 and 8.01 pass against subtotal 100 at rate 0.08 while 8.50
fails. -/
theorem validateTax_spec (s o r : ℚ) (hs : 0 ≤ s) (ho : 0 ≤ o) :
    (validateTaxCalculation s o r = Except.ok true ↔ |round2 (s * r) - o| ≤ 1 / 100)
    ∧ validateTaxCalculation 100 8 (8 / 100) = Except.ok true
    ∧ validateTaxCalculation 100 (801 / 100) (8 / 100) = Except.ok true
    ∧ validateTaxCalculation 100 (17 / 2) (8 / 100) = Except.ok false := by
  have harg : (100 : ℚ) * (8 / 100) = 8 := by norm_num
  have hround : round2 (8 : ℚ) = 8 := by
    have h := round2_eval (8 : ℚ) 800 (by norm_num) (by norm_num) (by norm_num)
    rw [h]
    norm_num
  refine ⟨?_, ?_, ?_, ?_⟩
  · rw [validateTaxCalculation, if_neg (nonneg_not_cond hs ho)]
    simp only [Except.ok.injEq, decide_eq_true_eq]
  · rw [validateTaxCalculation, if_neg (nonneg_not_cond (by norm_num) (by norm_num))]
    simp only [Except.ok.injEq, decide_eq_true_eq]
    rw [harg, hround]
    norm_num
  · rw [validateTaxCalculation, if_neg (nonneg_not_cond (by norm_num) (by norm_num))]
    simp only [Except.ok.injEq, decide_eq_true_eq]
    rw [harg, hround, abs_of_nonpos (by norm_num)]
    norm_num
  · rw [validateTaxCalculation, if_neg (nonneg_not_cond (by norm_num) (by norm_num))]
    simp only [Except.ok.injEq, decide_eq_false_iff_not]
    rw [harg, hround, abs_of_nonpos (by norm_num)]
    norm_num

/-- C3 witness: the specification instantiated at subtotal 100, observed
tax 8, rate 0.08. -/
theorem validateTax_spec_w :
    (validateTaxCalculation 100 8 (8 / 100) = Except.ok true
      ↔ |round2 ((100 : ℚ) * (8 / 100)) - 8| ≤ 1 / 100)
    ∧ validateTaxCalculation 100 8 (8 / 100) = Except.ok true
    ∧ validateTaxCalculation 100 (801 / 100) (8 / 100) = Except.ok true
    ∧ validateTaxCalculation 100 (17 / 2) (8 / 100) = Except.ok false :=
  validateTax_spec 100 8 (8 / 100) (by norm_num) (by norm_num)

/-- C4: away from the negative-input guard, `validateTotalCalculation`
returns `true` iff the observed total is within `0.01` of
`subtotal + tax`; concretely 108.00 passes against 100 + 8 while 107.98
fails because the 0.02 discrepancy exceeds the tolerance. -/
theorem validateTotal_spec (s t o : ℚ) (hs : 0 ≤ s) (ht : 0 ≤ t) (ho : 0 ≤ o) :
    (validateTotalCalculation s t o = Except.ok true ↔ |s + t - o| ≤ 1 / 100)
    ∧ validateTotalCalculation 100 8 108 = Except.ok true
    ∧ validateTotalCalculation 100 8 (10798 / 100) = Except.ok false := by
  have hcond : ¬((100 : ℚ) < 0 ∨ (8 : ℚ) < 0 ∨ (108 : ℚ) < 0) := by norm_num
  have hcond2 : ¬((100 : ℚ) < 0 ∨ (8 : ℚ) < 0 ∨ (10798 : ℚ) / 100 < 0) := by norm_num
  have hcond0 : ¬(s < 0 ∨ t < 0 ∨ o < 0) := by
    intro h
    rcases h with h | h | h <;> linarith
  refine ⟨?_, ?_, ?_⟩
  · rw [validateTotalCalculation, if_neg hcond0]
    simp only [Except.ok.injEq, decide_eq_true_eq]
  · rw [validateTotalCalculation, if_neg hcond]
    simp only [Except.ok.injEq, decide_eq_true_eq]
    rw [(by norm_num : (100 : ℚ) + 8 - 108 = 0), abs_zero]
    norm_num
  · rw [validateTotalCalculation, if_neg hcond2]
    simp only [Except.ok.injEq, decide_eq_false_iff_not]
    rw [(by norm_num : (100 : ℚ) + 8 - 10798 / 100 = 1 / 50), abs_of_nonneg (by norm_num)]
    norm_num

/-- C4 witness: the specification instantiated at subtotal 100, tax 8,
observed total 108. -/
theorem validateTotal_spec_w :
    (validateTotalCalculation 100 8 108 = Except.ok true
      ↔ |(100 : ℚ) + 8 - 108| ≤ 1 / 100)
    ∧ validateTotalCalculation 100 8 108 = Except.ok true
    ∧ validateTotalCalculation 100 8 (10798 / 100) = Except.ok false :=
  validateTotal_spec 100 8 108 (by norm_num) (by norm_num) (by norm_num)

/-- C5: on any negative MoneyAmount input both totals checks signal
`InvalidAmount` instead of returning a boolean. -/
theorem negativeAmount_signals_invalid (s o r t u : ℚ) :
    ((s < 0 ∨ o < 0) → validateTaxCalculation s o r = Except.error VerifError.invalidAmount)
    ∧ ((s < 0 ∨ t < 0 ∨ u < 0) →
        validateTotalCalculation s t u = Except.error VerifError.invalidAmount) := by
  constructor
  · intro h
    rw [validateTaxCalculation, if_pos h]
  · intro h
    rw [validateTotalCalculation, if_pos h]

/-- C5 witness: a negative subtotal makes both checks signal the error. -/
theorem negativeAmount_signals_invalid_w :
    validateTaxCalculation (-1) 0 0 = Except.error VerifError.invalidAmount
    ∧ validateTotalCalculation (-1) 0 0 = Except.error VerifError.invalidAmount := by
  have h := negativeAmount_signals_invalid (-1) 0 0 0 0
  exact ⟨h.1 (Or.inl (by norm_num)), h.2 (Or.inl (by norm_num))⟩

/-- C6: ties never cause an error and satisfy both directions: equal
strings satisfy the ascending and the descending comparator, and a
sequence whose adjacent extracted names are all equal passes both the
ascending and the descending check. -/
theorem ties_pass_both_directions (st : InventoryState) (a b : Str) :
    (a = b → strLe a b = true ∧ strLe b a = true)
    ∧ ((getProductNames st.nameTexts).Chain' (fun x y => x = y) →
        areProductsSortedAZ st = true ∧ areProductsSortedZA st = true) := by
  constructor
  · rintro rfl
    exact ⟨strLe_refl a, strLe_refl a⟩
  · intro h
    constructor
    · rw [az_eq_chain st]
      exact (chainLe_iff _ _).mpr (List.Chain'.imp (fun x y hxy => hxy ▸ strLe_refl x) h)
    · rw [za_eq_chain st]
      exact (chainLe_iff _ _).mpr (List.Chain'.imp (fun x y hxy => hxy ▸ strLe_refl x) h)

/-- C6 witness: an all-equal two-element listing passes both direction
checks. -/
theorem ties_pass_both_directions_w :
    (strLe ['x'] ['x'] = true ∧ strLe ['x'] ['x'] = true)
    ∧ areProductsSortedAZ ⟨[some ['x'], some ['x']], [], []⟩ = true
    ∧ areProductsSortedZA ⟨[some ['x'], some ['x']], [], []⟩ = true := by
  have h := ties_pass_both_directions ⟨[some ['x'], some ['x']], [], []⟩ ['x'] ['x']
  have h2 := h.2 (show List.Chain' (fun x y => x = y) [['x'], ['x']] from
    List.chain'_cons.mpr ⟨rfl, List.chain'_singleton _⟩)
  exact ⟨h.1 rfl, h2.1, h2.2⟩

/-- C7 counterexample: the name normalisation is not idempotent and the
ordering check is not invariant under it. A whitespace-only element is
truthy before normalisation, so the first pass keeps it as the empty
string, which the second pass then drops: on the raw sequence
`["a", " ", "b"]` the ascending check is `false` (the embedded empty
string sorts first) but on the normalised sequence it is `true`, and
applying the normalisation twice differs from applying it once. -/
theorem normalize_not_idempotent_cex :
    isOrderedAZ [['a'], [' '], ['b']] = false
    ∧ isOrderedAZ (normalizeNames [['a'], [' '], ['b']]) = true
    ∧ normalizeNames (normalizeNames [['a'], [' '], ['b']])
        ≠ normalizeNames [['a'], [' '], ['b']] := by
  refine ⟨?_, ?_, by decide⟩
  · rw [isOrderedAZ_eq_chain]
    decide
  · rw [isOrderedAZ_eq_chain]
    decide

/-- C7 (amended): for sequences none of whose nonempty elements trims to
the empty string, the normalisation is idempotent and the ordering
checks are invariant under it. -/
theorem normalize_idempotent_on_clean (s : List Str)
    (h : ∀ x ∈ s, x ≠ [] → jsTrim x ≠ []) :
    normalizeNames (normalizeNames s) = normalizeNames s
    ∧ isOrderedAZ (normalizeNames s) = isOrderedAZ s
    ∧ isOrderedZA (normalizeNames s) = isOrderedZA s := by
  have hid := normalizeNames_idem h
  refine ⟨hid, ?_, ?_⟩
  · simp only [isOrderedAZ, hid]
  · simp only [isOrderedZA, hid]

/-- C7 witness: the amended idempotence at a concrete clean sequence. -/
theorem normalize_idempotent_on_clean_w :
    (normalizeNames (normalizeNames [['a'], []]) = normalizeNames [['a'], []])
    ∧ isOrderedAZ (normalizeNames [['a'], []]) = isOrderedAZ [['a'], []]
    ∧ isOrderedZA (normalizeNames [['a'], []]) = isOrderedZA [['a'], []] :=
  normalize_idempotent_on_clean [['a'], []] (by decide)

/-- C8: the sort checks are functions of the extracted sequences alone:
two page states with the same extracted names give the same result for
the name check, and two page states with the same extracted prices give
the same result for the price check, whatever else differs between the
states. Together with the embedding of every verification operation as a
pure function of its arguments, this captures the determinism claim. -/
theorem verifier_depends_only_on_inputs (st1 st2 : InventoryState) :
    (getProductNames st1.nameTexts = getProductNames st2.nameTexts →
        areProductsSortedAZ st1 = areProductsSortedAZ st2)
    ∧ (getProductPrices st1.priceTexts = getProductPrices st2.priceTexts →
        areProductsSortedByPriceHighToLow st1 = areProductsSortedByPriceHighToLow st2) := by
  constructor
  · intro h
    simp only [areProductsSortedAZ, h]
  · intro h
    simp only [areProductsSortedByPriceHighToLow, h]

/-- C8 witness: two page states that differ in their raw items but agree
on the extracted sequences get identical verdicts. -/
theorem verifier_depends_only_on_inputs_w :
    areProductsSortedAZ ⟨[some ['a']], [some ['$', '1']], []⟩
      = areProductsSortedAZ ⟨[some ['a']], [some ['$', '1']], [⟨none, none, none, none⟩]⟩
    ∧ areProductsSortedByPriceHighToLow ⟨[some ['a']], [some ['$', '1']], []⟩
      = areProductsSortedByPriceHighToLow
          ⟨[some ['a']], [some ['$', '1']], [⟨none, none, none, none⟩]⟩ := by
  have h := verifier_depends_only_on_inputs ⟨[some ['a']], [some ['$', '1']], []⟩
    ⟨[some ['a']], [some ['$', '1']], [⟨none, none, none, none⟩]⟩
  exact ⟨h.1 rfl, h.2 rfl⟩

/-- C9: `getProducts` is not total over malformed price text: an item with
missing price text yields a product whose price is NaN (`none`), the
item is not dropped and no error is raised, the NaN price flows into the
resulting price data, and the defaulted empty string passed to
`parseFloat` after stripping the currency symbol indeed parses to NaN. -/
theorem missing_price_yields_nan (items : List RawItem) (it : RawItem)
    (h : it.priceText = none) :
    (getProducts items).length = items.length
    ∧ (extractProduct it).price = none
    ∧ (it ∈ items →
        (none : Option ℚ) ∈ List.map (fun p => Product.price p) (getProducts items))
    ∧ parseFloat (replaceFirst ['$'] [] []) = none := by
  have hp : (extractProduct it).price = none := by
    simp only [extractProduct, h]
    rfl
  refine ⟨by simp [getProducts], hp, fun hmem => ?_, rfl⟩
  exact List.mem_map.mpr ⟨extractProduct it, List.mem_map_of_mem _ hmem, hp⟩

/-- C9 witness: a single item with all texts missing. -/
theorem missing_price_yields_nan_w :
    (getProducts [(⟨none, none, none, none⟩ : RawItem)]).length
        = [(⟨none, none, none, none⟩ : RawItem)].length
    ∧ (extractProduct ⟨none, none, none, none⟩).price = none
    ∧ ((⟨none, none, none, none⟩ : RawItem) ∈ [(⟨none, none, none, none⟩ : RawItem)] →
        (none : Option ℚ) ∈ List.map (fun p => Product.price p)
          (getProducts [(⟨none, none, none, none⟩ : RawItem)]))
    ∧ parseFloat (replaceFirst ['$'] [] []) = none :=
  missing_price_yields_nan [⟨none, none, none, none⟩] ⟨none, none, none, none⟩ rfl

/-- C10 counterexample: the claim that `getCartItemCount` always returns a
non-negative integer fails: a badge whose text is `-3` makes the visible
branch call `parseInt`, which returns `-3`, a negative value. -/
theorem cartItemCount_negative_cex :
    getCartItemCount true (some ['-', '3']) = some (-3)
    ∧ ¬(0 ≤ (-3 : ℤ)) :=
  ⟨by decide, by decide⟩

/-- C10 (amended): `getCartItemCount` returns 0 whenever the badge is not
visible, its text is null, or its text is empty, and it returns a
non-negative integer whenever the badge text consists of decimal digits;
malformed or sign-prefixed badge text can instead produce NaN or a
negative number. -/
theorem cartItemCount_empty_returns_zero (v : Bool) (t : Option Str) (s : Str)
    (hd : ∀ c ∈ s, c.isDigit = true) :
    getCartItemCount false t = some 0
    ∧ getCartItemCount v none = some 0
    ∧ getCartItemCount v (some []) = some 0
    ∧ ∃ n : ℕ, getCartItemCount v (some s) = some (n : ℤ) := by
  refine ⟨rfl, by cases v <;> rfl, by cases v <;> rfl, ?_⟩
  cases v
  · exact ⟨0, rfl⟩
  · cases s with
    | nil => exact ⟨0, rfl⟩
    | cons c cs =>
      have hspace : ∀ x ∈ c :: cs, isJsSpace x = false :=
        fun x hx => digit_not_space (hd x hx)
      have hdz : List.dropWhile isJsSpace (c :: cs) = c :: cs :=
        dropWhile_eq_self_of_neg hspace
      have hcd := hd c (List.mem_cons_self _ _)
      have hcm : c ≠ '-' := fun he => by rw [he] at hcd; exact absurd hcd (by decide)
      have hcp : c ≠ '+' := fun he => by rw [he] at hcd; exact absurd hcd (by decide)
      have htk : List.takeWhile Char.isDigit (c :: cs) = c :: cs :=
        takeWhile_eq_self_of_pos hd
      refine ⟨digitsToNat (c :: cs), ?_⟩
      show parseIntTen (c :: cs) = some (digitsToNat (c :: cs) : ℤ)
      rw [parseIntTen, hdz]
      simp [hcm, hcp, digitsVal, htk]

/-- C10 witness: a visible badge with digit text `42`. -/
theorem cartItemCount_empty_returns_zero_w :
    getCartItemCount false none = some 0
    ∧ getCartItemCount true none = some 0
    ∧ getCartItemCount true (some []) = some 0
    ∧ ∃ n : ℕ, getCartItemCount true (some ['4', '2']) = some (n : ℤ) :=
  cartItemCount_empty_returns_zero true none ['4', '2'] (by decide)
